import Mathlib

/-!
Verification development for the desktop-live-whisper streaming
transcription pipeline.  The definitions below are shallow embeddings of
the C++ sources:

* `AQ.*`   — `src/audio/audio_queue.hpp` (`AudioQueue`)
* `TC.*`   — `src/core/transcription_controller.cpp`
             (`resample_to_16k`, `TranscriptionController::Impl`)
* `Diar.*` — `src/diar/speaker_cluster.cpp`
             (`cosine`, `SpeakerClusterer::assign`,
              `ContinuousFrameAnalyzer`)

Machine integers (`int64_t`, `size_t`) are embedded as `Int` / `Nat`
(all quantities stay far from the 64-bit range, and the C++ code never
relies on wrap-around).  IEEE `float` / `double` values are embedded as
exact real numbers `ℝ` (or `ℚ` where the code is used in decidable
positions); this is the usual idealisation for floating-point code and
is noted where it matters.  While loops are embedded with explicit fuel
that provably suffices.
-/

set_option maxHeartbeats 1000000
set_option maxRecDepth 100000

namespace DLW

/-! ## AudioQueue — src/audio/audio_queue.hpp

The queue stores audio chunks; for the ordering statements the payload
type is abstract.  `push` appends (it never drops).  `pop` first discards
elements from the front while the size exceeds `max_size_` (counting them
in `dropped_count_`), then delivers the front element.  A `pop` on an
empty queue blocks in the C++ code; here a blocked `pop` is a no-op step
(nothing is delivered, nothing changes).  `pushedLog`/`poppedLog` are
ghost histories used only to state the ordering properties. -/

structure QueueState (α : Type) where
  q : List α
  pushedLog : List α
  poppedLog : List α
  dropped : Nat
deriving Repr, DecidableEq

def qInit {α : Type} : QueueState α := ⟨[], [], [], 0⟩

inductive QOp (α : Type) where
  | push (c : α)
  | pop
deriving Repr, DecidableEq

/-- `AudioQueue::push` (audio_queue.hpp:27-36): enqueue, never drops. -/
def qPush {α : Type} (st : QueueState α) (c : α) : QueueState α :=
  { st with q := st.q ++ [c], pushedLog := st.pushedLog ++ [c] }

/-- `AudioQueue::pop` (audio_queue.hpp:40-57): drop-oldest while the
size exceeds the capacity, then deliver the front element. -/
def qPop {α : Type} (cap : Nat) (st : QueueState α) : QueueState α :=
  if st.q.isEmpty then st
  else
    let ndrop := st.q.length - cap
    let q' := st.q.drop ndrop
    { q := q'.tail
      pushedLog := st.pushedLog
      poppedLog := st.poppedLog ++ q'.take 1
      dropped := st.dropped + ndrop }

def qStep {α : Type} (cap : Nat) (st : QueueState α) : QOp α → QueueState α
  | QOp.push c => qPush st c
  | QOp.pop => qPop cap st

def qRun {α : Type} (cap : Nat) (ops : List (QOp α)) : QueueState α :=
  ops.foldl (qStep cap) qInit

/-- Scenario of claim C7 / spec §8 scenario 3: 120 pushes, then one pop,
on a capacity-50 queue. -/
def qScenario : List (QOp Nat) :=
  (List.range 120).map QOp.push ++ [QOp.pop]

/-- The reachability invariant of the queue: the push history splits
into a consumed prefix `gone` (popped or dropped elements, in order)
followed by the current queue contents; the pop history is a
subsequence of `gone`; and the drop counter accounts for every consumed
element that was not delivered. -/
def QInv {α : Type} (st : QueueState α) : Prop :=
  ∃ gone, st.pushedLog = gone ++ st.q ∧ st.poppedLog.Sublist gone ∧
    gone.length = st.poppedLog.length + st.dropped

/-! ## Resampler and segment emission —
src/core/transcription_controller.cpp -/

namespace TC

/-- `resample_to_16k` (transcription_controller.cpp:46-65).  Samples are
`int16_t` embedded as `Int`; the interpolation arithmetic (C++ `double`)
is embedded as exact `ℚ`.  `std::llround` on a positive value rounds
half away from zero, which agrees with Mathlib `round` (half up) there;
`std::lrint` is embedded as `round` as well (the rounding of the
interpolated sample value is irrelevant to the claims, which only
exercise the pass-through branch).  Out-of-range indexing cannot occur
(`i1` is clamped); `getD _ 0` is used for totality. -/
def resample_to_16k (input : List Int) (in_hz : Int) : List Int :=
  let target : Int := 16000
  if in_hz = target ∨ in_hz ≤ 0 ∨ input.length = 0 then input
  else
    let ratio : ℚ := (target : ℚ) / (in_hz : ℚ)
    let out_len : Nat := (round ((input.length : ℚ) * ratio) : ℤ).toNat
    (List.range out_len).map (fun i =>
      let src_pos : ℚ := (i : ℚ) / ratio
      let i0 : Nat := (⌊src_pos⌋ : ℤ).toNat
      let i1 : Nat := min (i0 + 1) (input.length - 1)
      let frac : ℚ := src_pos - (i0 : ℚ)
      let v : ℚ := (1 - frac) * ((input.getD i0 0 : ℤ) : ℚ)
                   + frac * ((input.getD i1 0 : ℤ) : ℚ)
      let vi : Int := round v
      max (-32768) (min vi 32767))

/-- `TranscriptionSegment` (transcription_controller.hpp): the emitted
chunk record, as used by the emission path. -/
structure Seg where
  text : String
  start_ms : Int
  end_ms : Int
  speaker_id : Int
deriving Repr, DecidableEq

/-- `Impl::HeldSegment` (transcription_controller.cpp:94-99). -/
structure Held where
  text : String
  start_ms : Int
  end_ms : Int
  speaker_id : Int
deriving Repr, DecidableEq

/-- The part of `TranscriptionController::Impl` state that the emission
path reads and writes: `all_segments`, `held_segments`,
`last_emitted_end_ms` (transcription_controller.cpp:100-102). -/
structure EmitState where
  all_segments : List Seg
  held_segments : List Held
  last_emitted_end_ms : Int
deriving Repr, DecidableEq

def emitInit : EmitState := ⟨[], [], 0⟩

/-- `Impl::emit_segment` (transcription_controller.cpp:328-360): trim
the start to the watermark, drop if empty after the trim, otherwise
append and advance the watermark. -/
def emit_segment (st : EmitState) (text : String) (start_ms end_ms speaker_id : Int) :
    EmitState :=
  let start' := if start_ms < st.last_emitted_end_ms then st.last_emitted_end_ms else start_ms
  if start' ≥ end_ms then st
  else
    { st with
      all_segments := st.all_segments ++ [⟨text, start', end_ms, speaker_id⟩]
      last_emitted_end_ms := max st.last_emitted_end_ms end_ms }

/-- Loop body of `Impl::emit_held_segments`
(transcription_controller.cpp:362-398); the C++ body duplicates the
logic of `emit_segment` verbatim. -/
def emit_one_held (st : EmitState) (h : Held) : EmitState :=
  let start' := if h.start_ms < st.last_emitted_end_ms then st.last_emitted_end_ms else h.start_ms
  if start' ≥ h.end_ms then st
  else
    { st with
      all_segments := st.all_segments ++ [⟨h.text, start', h.end_ms, h.speaker_id⟩]
      last_emitted_end_ms := max st.last_emitted_end_ms h.end_ms }

/-- `Impl::emit_held_segments` (transcription_controller.cpp:362-401):
emit every held segment in order, then clear the held list. -/
def emit_held_segments (st : EmitState) : EmitState :=
  let st' := st.held_segments.foldl emit_one_held st
  { st' with held_segments := [] }

/-- The emission-facing operations a session performs on the emit state:
direct emissions (`emit_segment`), pushes into `held_segments`
(process_buffer, transcription_controller.cpp:310-317), and
`emit_held_segments` flushes. -/
inductive EmitOp where
  | emitSeg (text : String) (start_ms end_ms speaker_id : Int)
  | hold (h : Held)
  | emitHeld
deriving Repr, DecidableEq

def emitApply (st : EmitState) : EmitOp → EmitState
  | EmitOp.emitSeg t s e k => emit_segment st t s e k
  | EmitOp.hold h => { st with held_segments := st.held_segments ++ [h] }
  | EmitOp.emitHeld => emit_held_segments st

def emitRun (ops : List EmitOp) : EmitState :=
  ops.foldl emitApply emitInit

/-- The emission invariant of claim C1: emitted segments are
non-degenerate (`start_ms < end_ms`), time-ordered without overlap
(`chunks[i].end_ms ≤ chunks[i+1].start_ms`), and `last_emitted_end_ms`
is the maximum emitted `end_ms` so far (`0` before any emission). -/
def EmitInv (st : EmitState) : Prop :=
  List.Chain' (fun a b => a.end_ms ≤ b.start_ms) st.all_segments ∧
  (∀ s ∈ st.all_segments, s.start_ms < s.end_ms) ∧
  st.last_emitted_end_ms = (st.all_segments.map Seg.end_ms).foldl max 0

/-- One whisper ASR segment as returned by
`WhisperBackend::transcribe_chunk_segments`: text with times relative to
the audio buffer handed to the engine. -/
structure WSeg where
  text : String
  t0_ms : Int
  t1_ms : Int
deriving Repr, DecidableEq

/-- Per-segment disposition in `Impl::process_buffer`
(transcription_controller.cpp:272-322).  `transcribe_start_time_ms` is
the absolute start of the audio given to the ASR engine and
`emit_boundary_ms` the emit/hold boundary relative to that audio.
`speaker_id` abstracts the diarization result computed at
transcription_controller.cpp:280-302 (that computation touches only the
clusterer, not the emission state). -/
def process_one_segment (transcribe_start_time_ms emit_boundary_ms : Int)
    (speaker_id : Int) (st : EmitState) (wseg : WSeg) : EmitState :=
  if wseg.text = "" then st
  else
    let seg_start_ms := transcribe_start_time_ms + wseg.t0_ms
    let seg_end_ms := transcribe_start_time_ms + wseg.t1_ms
    if seg_end_ms ≤ st.last_emitted_end_ms then st
    else if wseg.t1_ms ≥ emit_boundary_ms then
      { st with held_segments :=
          st.held_segments ++ [⟨wseg.text, seg_start_ms, seg_end_ms, speaker_id⟩] }
    else
      emit_segment st wseg.text seg_start_ms seg_end_ms speaker_id

/-- The three-way rule exactly as the specification words it (spec
§4.5 step 2): compute absolute times from the buffer start; drop if
`end ≤ last_emitted_end_ms`; else hold if `t1_rel ≥ emit_boundary_ms`;
else emit with `start` trimmed to `max(start, last_emitted_end_ms)`,
dropping if invalid after the trim and advancing the watermark to
`max(last_emitted_end_ms, end)` on emission.  This is the spec-side
definition used for the refinement claim C2. -/
def spec_three_way_rule (buffer_start emit_boundary_ms : Int)
    (speaker_id : Int) (st : EmitState) (wseg : WSeg) : EmitState :=
  let start := buffer_start + wseg.t0_ms
  let «end» := buffer_start + wseg.t1_ms
  if «end» ≤ st.last_emitted_end_ms then st
  else if wseg.t1_ms ≥ emit_boundary_ms then
    { st with held_segments :=
        st.held_segments ++ [⟨wseg.text, start, «end», speaker_id⟩] }
  else
    let start' := max start st.last_emitted_end_ms
    if start' ≥ «end» then st
    else
      { st with
        all_segments := st.all_segments ++ [⟨wseg.text, start', «end», speaker_id⟩]
        last_emitted_end_ms := max st.last_emitted_end_ms «end» }

/-! ### The processing window path (`Impl::process_buffer`,
`Impl::processing_loop` tail) -/

/-- The part of `TranscriptionController::Impl` that `process_buffer`
reads and writes (transcription_controller.cpp:88-111), plus the ghost
counter `asr_calls` recording how many times
`whisper->transcribe_chunk_segments` has been invoked. -/
structure ProcState where
  audio_buffer : List Int
  buffer_start_time_ms : Int
  windows_processed : Nat
  emit : EmitState
  asr_calls : Nat
deriving Repr, DecidableEq

def overlapSamples (overlap_duration_s : Nat) : Nat := 16000 * overlap_duration_s

/-- `Impl::slide_window` (transcription_controller.cpp:427-442). -/
def slide_window (overlap_duration_s : Nat) (st : ProcState) : ProcState :=
  let ov := overlapSamples overlap_duration_s
  if st.audio_buffer.length > ov then
    let discard := st.audio_buffer.length - ov
    { st with
      buffer_start_time_ms := st.buffer_start_time_ms + ((discard * 1000) / 16000 : Nat)
      audio_buffer := st.audio_buffer.drop discard }
  else
    { st with
      buffer_start_time_ms :=
        st.buffer_start_time_ms + ((st.audio_buffer.length * 1000) / 16000 : Nat)
      audio_buffer := [] }

/-- The silence gate of `Impl::process_buffer`
(transcription_controller.cpp:235-247).  The C++ computes
`rms = sqrt(sum2 / max(1,n))` and `dbfs = rms > 0 ? 20*log10(rms) : -120`
and skips when `dbfs <= -55`.  In exact arithmetic that condition is
equivalent to `(sum2/max(1,n))^2 ≤ 10^(-11)` (square twice; the
`rms = 0` case gives `-120 ≤ -55` and `0 ≤ 10^(-11)` on the two sides),
which is how it is stated here so that it is decidable over `ℚ`. -/
def is_silent (samples : List Int) : Bool :=
  let n : Nat := max 1 samples.length
  let sum2 : ℚ := (samples.map (fun s => ((s : ℚ) / 32768) ^ 2)).sum
  decide ((sum2 / (n : ℚ)) ^ 2 ≤ 1 / 10 ^ 11)

/-- `Impl::process_buffer` (transcription_controller.cpp:218-326),
parameterised by the external ASR engine `asr` (the foreign
`whisper->transcribe_chunk_segments`) and by `spkOf`, the diarization
result for each segment (transcription_controller.cpp:280-302; it only
touches the clusterer, never the emission state). -/
def process_buffer (overlap_duration_s : Nat) (asr : List Int → List WSeg)
    (spkOf : WSeg → Int) (st : ProcState) : ProcState :=
  let st := { st with emit := emit_held_segments st.emit }
  let ov := overlapSamples overlap_duration_s
  let transcribe_start_sample :=
    if st.windows_processed > 0 then min ov st.audio_buffer.length else 0
  let transcribe_sample_count := st.audio_buffer.length - transcribe_start_sample
  if transcribe_sample_count < 16000 then slide_window overlap_duration_s st
  else
    let transcribe_data := st.audio_buffer.drop transcribe_start_sample
    if is_silent transcribe_data then slide_window overlap_duration_s st
    else
      let transcribe_start_time_ms :=
        st.buffer_start_time_ms + ((transcribe_start_sample * 1000) / 16000 : Nat)
      let whisper_segments := asr transcribe_data
      let st := { st with
        asr_calls := st.asr_calls + 1
        windows_processed := st.windows_processed + 1 }
      let new_audio_duration_s := transcribe_sample_count / 16000
      let emit_boundary_s :=
        if new_audio_duration_s > overlap_duration_s then
          new_audio_duration_s - overlap_duration_s
        else new_audio_duration_s
      let emit_boundary_ms : Int := (emit_boundary_s * 1000 : Nat)
      let st := { st with
        emit := whisper_segments.foldl
          (fun e w => process_one_segment transcribe_start_time_ms emit_boundary_ms
            (spkOf w) e w)
          st.emit }
      slide_window overlap_duration_s st

/-- End-of-stream tail of `Impl::processing_loop`
(transcription_controller.cpp:209-216): process any remaining audio in
the buffer, then flush any held segments. -/
def final_flush (overlap_duration_s : Nat) (asr : List Int → List WSeg)
    (spkOf : WSeg → Int) (st : ProcState) : ProcState :=
  let st' := if st.audio_buffer.isEmpty then st
             else process_buffer overlap_duration_s asr spkOf st
  { st' with emit := emit_held_segments st'.emit }

end TC

/-! ## Speaker diarization — src/diar/speaker_cluster.cpp

Float values are embedded as exact reals; the definitions below are
therefore `noncomputable` (they use `Real.sqrt` exactly where the C++
uses `std::sqrt`), and concrete evaluations in the theorems are done by
rewriting. -/

namespace Diar

/-- `cosine` (speaker_cluster.cpp:10-16): guarded cosine similarity with
the `1e-8` denominator cushion. -/
noncomputable def cosine (a b : List ℝ) : ℝ :=
  if a.length = 0 ∨ b.length = 0 ∨ a.length ≠ b.length then 0
  else
    let dot := (List.zipWith (fun x y => x * y) a b).sum
    let na := (a.map (fun x => x * x)).sum
    let nb := (b.map (fun x => x * x)).sum
    if na ≤ 0 ∨ nb ≤ 0 then 0
    else dot / (Real.sqrt na * Real.sqrt nb + 1 / 100000000)

/-- State of `SpeakerClusterer` (speaker_cluster.hpp:213-237):
`m_centroids`, `m_current_speaker`, `m_frames_since_change`, and the
configuration fields `m_max` (max speakers) and `m_thr` (similarity
threshold). -/
structure ClusterState where
  centroids : List (List ℝ)
  current : Int
  frames_since_change : Int
  maxSpeakers : Int
  thr : ℝ

/-- `SpeakerClusterer` constructor (speaker_cluster.hpp:215-217). -/
def clusterInit (max_speakers : Int) (sim_threshold : ℝ) : ClusterState :=
  ⟨[], -1, 0, max_speakers, sim_threshold⟩

/-- The best-match scan of `SpeakerClusterer::assign`
(speaker_cluster.cpp:619-627): running argmax over the similarity list,
starting from `best = -1`, `bestSim = -1.0`, updating on strict
improvement. -/
noncomputable def bestScan (sims : List ℝ) : Int × ℝ :=
  (sims.foldl
    (fun (acc : (Int × ℝ) × Nat) (s : ℝ) =>
      if s > acc.1.2 then (((acc.2 : Int), s), acc.2 + 1) else (acc.1, acc.2 + 1))
    ((-1, -1), 0)).1

/-- In-place slow centroid update of the stay-with-current branch
(speaker_cluster.cpp:640-643): `c[i] = 0.95*c[i] + 0.05*emb[i]` for
every index of `c` (the C++ indexes `emb` with the same indices; `getD`
totalises the out-of-range case that the C++ leaves undefined). -/
def blendUpdate (c emb : List ℝ) : List ℝ :=
  (List.range c.length).map (fun i => 0.95 * c.getD i 0 + 0.05 * emb.getD i 0)

/-- `SpeakerClusterer::assign` (speaker_cluster.cpp:602-695), returning
the chosen speaker index together with the successor state. -/
noncomputable def assign (st : ClusterState) (emb : List ℝ) : Int × ClusterState :=
  if emb.isEmpty then (if st.current ≥ 0 then st.current else -1, st)
  else if st.centroids.isEmpty then
    (0, { st with centroids := [emb], current := 0, frames_since_change := 0 })
  else
    let similarities := st.centroids.map (fun c => cosine emb c)
    let bp := bestScan similarities
    let best := bp.1
    let bestSim := bp.2
    let switch_threshold := st.thr + 0.10
    let min_frames_before_switch : Int := 3
    if 0 ≤ st.current ∧ st.current < (similarities.length : Int) then
      let current_sim := similarities.getD st.current.toNat 0
      if current_sim ≥ st.thr then
        (st.current,
         { st with
           centroids := st.centroids.set st.current.toNat
             (blendUpdate (st.centroids.getD st.current.toNat []) emb)
           frames_since_change := st.frames_since_change + 1 })
      else if best ≠ st.current ∧ bestSim > current_sim + 0.15 ∧
          st.frames_since_change ≥ min_frames_before_switch then
        (best, { st with current := best, frames_since_change := 0 })
      else if (st.centroids.length : Int) < st.maxSpeakers ∧ bestSim < switch_threshold ∧
          st.frames_since_change ≥ min_frames_before_switch then
        ((st.centroids.length : Int),
         { st with centroids := st.centroids ++ [emb],
                   current := (st.centroids.length : Int), frames_since_change := 0 })
      else
        (st.current, { st with frames_since_change := st.frames_since_change + 1 })
    else
      if 0 ≤ best ∧ bestSim ≥ st.thr then
        (best, { st with current := best, frames_since_change := 0 })
      else if (st.centroids.length : Int) < st.maxSpeakers then
        ((st.centroids.length : Int),
         { st with centroids := st.centroids ++ [emb],
                   current := (st.centroids.length : Int), frames_since_change := 0 })
      else if 0 ≤ best then
        (best, { st with current := best, frames_since_change := 0 })
      else (-1, st)

/-- Squared L2 norm of a vector, for stating (non-)unit-length facts. -/
def l2normSq (v : List ℝ) : ℝ := (v.map (fun x => x * x)).sum

/-- Renormalisation to unit L2 length, as the specification's centroid
update formula words it ("then renormalize to unit length"). -/
noncomputable def renormalize (v : List ℝ) : List ℝ :=
  v.map (fun x => x / Real.sqrt (l2normSq v))

/-- The reachability well-formedness of a clusterer state: fresh, or
`m_current_speaker` indexes a centroid.  Holds for the initial state and
is preserved by `assign`. -/
def WF (st : ClusterState) : Prop :=
  (st.centroids = [] ∧ st.current = -1) ∨
    (0 ≤ st.current ∧ st.current < (st.centroids.length : Int))

/-! ### `ContinuousFrameAnalyzer::cluster_frames`
(speaker_cluster.cpp:994-1065) -/

/-- A diarization frame (`ContinuousFrameAnalyzer::Frame`,
speaker_cluster.hpp:90-101). -/
structure DFrame where
  t_start_ms : Int
  t_end_ms : Int
  embedding : List ℝ
  speaker_id : Int
  confidence : ℝ

/-- One comparison of the best-centroid scan of `cluster_frames`
(speaker_cluster.cpp:1023-1029): update the running best on strict
improvement; the `Nat` component is the loop index `s`. -/
noncomputable def bestFromStep (emb : List ℝ) (acc : (Int × ℝ) × Nat)
    (c : List ℝ) : (Int × ℝ) × Nat :=
  let sim := cosine emb c
  if sim > acc.1.2 then (((acc.2 : Int), sim), acc.2 + 1) else (acc.1, acc.2 + 1)

/-- The best-centroid scan of `cluster_frames`
(speaker_cluster.cpp:1019-1029): starts from centroid 0 and scans the
rest; only called with a non-empty centroid list. -/
noncomputable def bestFrom (emb : List ℝ) (centroids : List (List ℝ)) : Int × ℝ :=
  match centroids with
  | [] => (0, 0)
  | c0 :: rest => (rest.foldl (bestFromStep emb) ((0, cosine emb c0), 1)).1

/-- Accumulator of the `cluster_frames` loop: processed frames (with
`speaker_id`/`confidence` filled in), the centroids, and their counts. -/
structure ClusterOut where
  frames : List DFrame
  centroids : List (List ℝ)
  counts : List Int

/-- Loop body of `cluster_frames` (speaker_cluster.cpp:1018-1056). -/
noncomputable def cluster_step (max_speakers : Int) (threshold : ℝ)
    (acc : ClusterOut) (f : DFrame) : ClusterOut :=
  let bp := bestFrom f.embedding acc.centroids
  let best_speaker := bp.1
  let best_sim := bp.2
  if best_sim < threshold ∧ (acc.centroids.length : Int) < max_speakers then
    { frames := acc.frames ++
        [{ f with speaker_id := (acc.centroids.length : Int), confidence := 1 }]
      centroids := acc.centroids ++ [f.embedding]
      counts := acc.counts ++ [1] }
  else
    let count := acc.counts.getD best_speaker.toNat 0
    let c := acc.centroids.getD best_speaker.toNat []
    let c' := (List.range c.length).map
      (fun d => (c.getD d 0 * (count : ℝ) + f.embedding.getD d 0) / ((count : ℝ) + 1))
    { frames := acc.frames ++ [{ f with speaker_id := best_speaker, confidence := best_sim }]
      centroids := acc.centroids.set best_speaker.toNat c'
      counts := acc.counts.set best_speaker.toNat (count + 1) }

/-- `ContinuousFrameAnalyzer::cluster_frames`
(speaker_cluster.cpp:994-1065): seed speaker 0 with the first frame,
then greedily cluster the rest. -/
noncomputable def cluster_frames (max_speakers : Int) (threshold : ℝ)
    (frames : List DFrame) : ClusterOut :=
  match frames with
  | [] => { frames := [], centroids := [], counts := [] }
  | f0 :: rest =>
    rest.foldl (cluster_step max_speakers threshold)
      { frames := [{ f0 with speaker_id := 0, confidence := 1 }]
        centroids := [f0.embedding]
        counts := [1] }

/-! ### `ContinuousFrameAnalyzer::add_audio`
(speaker_cluster.cpp:845-948)

Timing model of the frame extractor, with the configuration installed by
`TranscriptionController::Impl::initialize`
(transcription_controller.cpp:136-139): `hop_ms = 250`,
`window_ms = 1000`, `history_sec = 60` (Config default,
speaker_cluster.hpp:104-111), sample rate 16000.  The audio sample
values never influence the control flow of `add_audio` (they only feed
the embedding of an extracted frame), so the model tracks the buffer by
its length, and a frame by its `(t_start_ms, t_end_ms)` pair.
`extracted` is a ghost append-only history of every frame ever
extracted; `frames` mirrors `m_frames` (which `clear_old_frames`
trims from the front). -/

def hop_ms : Int := 250

def window_ms : Int := 1000

/-- `samples_to_ms` (speaker_cluster.cpp:837-839); `size_t` arithmetic,
so `Nat` division. -/
def samples_to_ms (samples : Nat) : Int := ((samples * 1000) / 16000 : Nat)

/-- `ms_to_samples` (speaker_cluster.cpp:841-843); only applied to
non-negative times. -/
def ms_to_samples (ms : Int) : Nat := ((ms * 16000) / 1000).toNat

structure FAState where
  buffer_len : Nat
  total : Nat
  next_frame_ms : Int
  frames : List (Int × Int)
  extracted : List (Int × Int)
deriving Repr, DecidableEq

/-- Constructor (speaker_cluster.cpp:817-828):
`m_next_frame_ms = window_ms / 2`. -/
def faInit : FAState := ⟨0, 0, window_ms / 2, [], []⟩

/-- The frame-extraction `while` loop of `add_audio`
(speaker_cluster.cpp:862-904), with explicit fuel.  One fuel unit per
iteration; `fa_add_audio` supplies provably sufficient fuel, so the
embedding agrees with the C++ loop (which terminates because
`m_next_frame_ms` strictly increases by `hop_ms > 0`).  A frame is
pushed with `t_start_ms`/`t_end_ms` set from the centre even when
`extract_frame_at_ms` finds too little buffered audio
(speaker_cluster.cpp:922-948 sets the times before its bounds check). -/
def faLoop : Nat → Int → FAState → FAState
  | 0, _, st => st
  | fuel + 1, current_ms, st =>
    if st.next_frame_ms ≤ current_ms then
      let window_start_ms := st.next_frame_ms - window_ms / 2
      let window_end_ms := st.next_frame_ms + window_ms / 2
      if window_end_ms > current_ms then st
      else
        let buffer_start_ms := samples_to_ms (st.total - st.buffer_len)
        let buffer_end_ms := samples_to_ms st.total
        let st1 :=
          if window_start_ms ≥ buffer_start_ms ∧ window_end_ms ≤ buffer_end_ms then
            { st with
              frames := st.frames ++ [(window_start_ms, window_end_ms)]
              extracted := st.extracted ++ [(window_start_ms, window_end_ms)] }
          else st
        let st2 := { st1 with next_frame_ms := st1.next_frame_ms + hop_ms }
        if st2.next_frame_ms > current_ms + hop_ms * 10 then st2
        else faLoop fuel current_ms st2
    else st

/-- `ContinuousFrameAnalyzer::add_audio` (speaker_cluster.cpp:845-920):
append the chunk, run the extraction loop, trim old frames
(`clear_old_frames`, speaker_cluster.cpp:970-975, with
`cutoff = current - history_sec*1000`), then trim the audio buffer to
`2*window_ms` once it exceeds that plus `10*hop_ms`. -/
def fa_add_audio (st : FAState) (n_samples : Nat) : FAState :=
  if n_samples = 0 then st
  else
    let st := { st with
      buffer_len := st.buffer_len + n_samples
      total := st.total + n_samples }
    let current_ms := samples_to_ms st.total
    let st := faLoop ((current_ms - st.next_frame_ms).toNat + 1) current_ms st
    let cutoff_ms := current_ms - 60 * 1000
    let st := { st with frames := st.frames.dropWhile (fun f => f.2 < cutoff_ms) }
    let samples_to_keep := ms_to_samples (window_ms * 2)
    if st.buffer_len > samples_to_keep + ms_to_samples (hop_ms * 10) then
      { st with buffer_len := samples_to_keep }
    else st

def faRun (chunks : List Nat) : FAState := chunks.foldl fa_add_audio faInit

/-- Reachability invariant of the frame analyzer (claim C6): the buffer
never outgrows the processed total; the buffered audio always reaches
back to `window_ms/2` before the next extraction centre (so no centre is
ever skipped); the extractor is caught up to within half a window of the
stream head; the next centre sits exactly `hop_ms` past the last
extracted one; the n-th extracted frame is
`(n·hop_ms, n·hop_ms + window_ms)`; and the stored frames are a suffix
of the extracted frames. -/
def FAInv (st : FAState) : Prop :=
  st.buffer_len ≤ st.total ∧
  samples_to_ms (st.total - st.buffer_len) ≤ st.next_frame_ms - 500 ∧
  samples_to_ms st.total < st.next_frame_ms + 500 ∧
  st.next_frame_ms = 500 + 250 * (st.extracted.length : Int) ∧
  (∀ n, n < st.extracted.length →
    st.extracted.getD n (0, 0) = ((n : Int) * 250, (n : Int) * 250 + 1000)) ∧
  (∃ k, k ≤ st.extracted.length ∧ st.frames = st.extracted.drop k)

end Diar

/-! ## Theorems -/

/-- The start-trim of `emit_segment`: the C++
`if (start_ms < last) start_ms = last` computes `max start_ms last`. -/
theorem trim_eq_max (a b : Int) : (if a < b then b else a) = max a b := by
  split_ifs with h
  · exact (max_eq_right h.le).symm
  · exact (max_eq_left (not_lt.mp h)).symm

/-- C9 (confirmed): resampling at the 16 kHz target rate returns the
input unchanged — `resample_to_16k` takes its pass-through branch
(transcription_controller.cpp:48-50). -/
theorem C9_resample_identity (x : List Int) : TC.resample_to_16k x 16000 = x := by
  unfold TC.resample_to_16k
  simp

/-- C10 (confirmed): `SpeakerClusterer::assign` on an empty embedding
(speaker_cluster.cpp:603) returns the current speaker index (or `-1`
when none exists) and leaves the clusterer state completely
unchanged. -/
theorem C10_assign_empty_embedding (st : Diar.ClusterState) :
    Diar.assign st [] = (if st.current ≥ 0 then st.current else -1, st) := by
  unfold Diar.assign
  simp

/-- C2 (confirmed): the per-segment disposition in
`Impl::process_buffer` is exactly the spec's three-way rule
(drop when `end ≤ last_emitted_end_ms`; hold when
`t1_rel ≥ emit_boundary_ms`; otherwise emit with the start trimmed to
`max(start, last_emitted_end_ms)`, dropping if invalid after the trim
and advancing the watermark to `max(last_emitted_end_ms, end)`), for
every segment with non-empty text. -/
theorem C2_segment_rule (ts eb spk : Int) (st : TC.EmitState) (w : TC.WSeg)
    (h : w.text ≠ "") :
    TC.process_one_segment ts eb spk st w = TC.spec_three_way_rule ts eb spk st w := by
  unfold TC.process_one_segment TC.spec_three_way_rule TC.emit_segment
  rw [if_neg h]
  simp only [trim_eq_max, max_comm]

/-- Closed witness for C2 at a concrete segment. -/
theorem C2_segment_rule_witness :
    ("hello" : String) ≠ "" ∧
    TC.process_one_segment 3000 4000 0 TC.emitInit ⟨"hello", 100, 700⟩
      = TC.spec_three_way_rule 3000 4000 0 TC.emitInit ⟨"hello", 100, 700⟩ :=
  ⟨by decide, C2_segment_rule 3000 4000 0 TC.emitInit ⟨"hello", 100, 700⟩ (by decide)⟩

/-! ### AudioQueue ordering (C7) -/

theorem qStep_inv {α : Type} (cap : Nat) (st : QueueState α) (h : QInv st)
    (op : QOp α) : QInv (qStep cap st op) := by
  obtain ⟨gone, hpush, hsub, hlen⟩ := h
  cases op with
  | push c =>
    refine ⟨gone, ?_, hsub, hlen⟩
    simp [qStep, qPush, hpush]
  | pop =>
    by_cases hq : st.q.isEmpty
    · exact ⟨gone, by simpa [qStep, qPop, hq] using hpush,
        by simpa [qStep, qPop, hq] using hsub,
        by simpa [qStep, qPop, hq] using hlen⟩
    · refine ⟨gone ++ st.q.take (st.q.length - cap) ++
        (st.q.drop (st.q.length - cap)).take 1, ?_, ?_, ?_⟩
      · simp only [qStep, qPop, hq, Bool.false_eq_true, if_false]
        rw [hpush, List.append_assoc, List.append_assoc]
        congr 1
        rw [← List.drop_one, List.take_append_drop, List.take_append_drop]
      · simp only [qStep, qPop, hq, Bool.false_eq_true, if_false]
        exact List.Sublist.append
          (hsub.trans (List.sublist_append_left gone (st.q.take (st.q.length - cap))))
          (List.Sublist.refl _)
      · simp only [qStep, qPop, hq, Bool.false_eq_true, if_false, List.length_append,
          List.length_take]
        have hd : st.q.length - cap ≤ st.q.length := Nat.sub_le _ _
        omega

theorem qFold_inv {α : Type} (cap : Nat) (ops : List (QOp α)) :
    ∀ st : QueueState α, QInv st → QInv (ops.foldl (qStep cap) st) := by
  induction ops with
  | nil => intro st h; exact h
  | cons op rest ih => intro st h; exact ih _ (qStep_inv cap st h op)

theorem qRun_inv {α : Type} (cap : Nat) (ops : List (QOp α)) : QInv (qRun cap ops) :=
  qFold_inv cap ops qInit ⟨[], rfl, List.Sublist.refl _, rfl⟩

/-- C7 (confirmed): for every interleaving of pushes and pops, the
popped chunks are a subsequence of the pushed chunks in push order; the
queue contents are always a contiguous suffix of the push history (so
everything consumed — popped or dropped — is an initial run of the push
order, i.e. drops always take the oldest elements present); the drop
counter equals the number of pushed elements neither delivered nor still
queued; and pushing 120 chunks into a capacity-50 queue followed by a
single pop drops exactly 70 (≥ 70) chunks. -/
theorem C7_queue_drop_oldest :
    (∀ (α : Type) (cap : Nat) (ops : List (QOp α)),
      (qRun cap ops).poppedLog.Sublist (qRun cap ops).pushedLog ∧
      (∃ k, (qRun cap ops).q = (qRun cap ops).pushedLog.drop k) ∧
      (qRun cap ops).pushedLog.length =
        (qRun cap ops).poppedLog.length + (qRun cap ops).q.length +
          (qRun cap ops).dropped) ∧
    (qRun 50 qScenario).dropped = 70 := by
  constructor
  · intro α cap ops
    obtain ⟨gone, hpush, hsub, hlen⟩ := qRun_inv cap ops
    refine ⟨hsub.trans (hpush ▸ List.sublist_append_left gone _), ⟨gone.length, ?_⟩, ?_⟩
    · rw [hpush, List.drop_append_of_le_length (le_refl _), List.drop_length,
        List.nil_append]
    · rw [hpush, List.length_append, hlen]
      omega
  · decide

/-! ### Emission invariant (C1) -/

theorem foldl_max_le_init (l : List Int) (a : Int) : a ≤ l.foldl max a := by
  induction l generalizing a with
  | nil => exact le_refl a
  | cons x xs ih => exact le_trans (le_max_left a x) (ih (max a x))

theorem mem_le_foldl_max (l : List Int) : ∀ (a x : Int), x ∈ l → x ≤ l.foldl max a := by
  induction l with
  | nil => intro a x hx; cases hx
  | cons y ys ih =>
    intro a x hx
    rcases List.mem_cons.mp hx with h | h
    · subst h
      exact le_trans (le_max_right a x) (foldl_max_le_init ys _)
    · exact ih _ _ h

theorem foldl_max_concat (l : List Int) (a x : Int) :
    (l ++ [x]).foldl max a = max (l.foldl max a) x := by
  rw [List.foldl_append, List.foldl_cons, List.foldl_nil]

/-- The loop body of `emit_held_segments` repeats `emit_segment`
verbatim (modulo the held list, which neither touches). -/
theorem emit_one_held_eq (st : TC.EmitState) (h : TC.Held) :
    TC.emit_one_held st h = TC.emit_segment st h.text h.start_ms h.end_ms h.speaker_id :=
  rfl

theorem emit_segment_mono (st : TC.EmitState) (t : String) (s e k : Int) :
    st.last_emitted_end_ms ≤ (TC.emit_segment st t s e k).last_emitted_end_ms := by
  unfold TC.emit_segment
  dsimp only
  split_ifs
  all_goals first
    | exact le_refl _
    | exact le_max_left _ _

theorem emit_held_fold_mono (held : List TC.Held) : ∀ st : TC.EmitState,
    st.last_emitted_end_ms ≤ (held.foldl TC.emit_one_held st).last_emitted_end_ms := by
  induction held with
  | nil => intro st; exact le_refl _
  | cons hd tl ih =>
    intro st
    rw [List.foldl_cons, emit_one_held_eq]
    exact le_trans (emit_segment_mono st hd.text hd.start_ms hd.end_ms hd.speaker_id) (ih _)

theorem emitApply_mono (st : TC.EmitState) (op : TC.EmitOp) :
    st.last_emitted_end_ms ≤ (TC.emitApply st op).last_emitted_end_ms := by
  cases op with
  | emitSeg t s e k => exact emit_segment_mono st t s e k
  | hold hd => exact le_refl _
  | emitHeld => exact emit_held_fold_mono st.held_segments st

theorem emit_segment_inv (st : TC.EmitState) (t : String) (s e k : Int)
    (h : TC.EmitInv st) : TC.EmitInv (TC.emit_segment st t s e k) := by
  obtain ⟨hchain, hlt, hmax⟩ := h
  unfold TC.emit_segment
  dsimp only
  by_cases hse : (if s < st.last_emitted_end_ms then st.last_emitted_end_ms else s) ≥ e
  · rw [if_pos hse]
    exact ⟨hchain, hlt, hmax⟩
  · rw [if_neg hse]
    have hlast_le : st.last_emitted_end_ms ≤
        (if s < st.last_emitted_end_ms then st.last_emitted_end_ms else s) := by
      split_ifs with h1
      · exact le_refl _
      · exact le_of_not_lt h1
    refine ⟨?_, ?_, ?_⟩
    · rw [List.chain'_append]
      refine ⟨hchain, List.chain'_singleton _, ?_⟩
      intro x hx y hy
      simp only [List.head?_cons, Option.mem_def, Option.some.injEq] at hy
      obtain ⟨hne, hxe⟩ := List.mem_getLast?_eq_getLast hx
      have hmem : x ∈ st.all_segments := hxe ▸ List.getLast_mem hne
      have hxle : x.end_ms ≤ st.last_emitted_end_ms := by
        rw [hmax]
        exact mem_le_foldl_max _ _ _ (List.mem_map_of_mem TC.Seg.end_ms hmem)
      rw [← hy]
      exact le_trans hxle hlast_le
    · intro x hx
      rcases List.mem_append.mp hx with hmem | hmem
      · exact hlt x hmem
      · rcases List.mem_singleton.mp hmem with rfl
        exact lt_of_not_ge hse
    · simp only [List.map_append, List.map_cons, List.map_nil]
      rw [foldl_max_concat, ← hmax]

theorem emit_held_fold_inv (held : List TC.Held) : ∀ st : TC.EmitState,
    TC.EmitInv st → TC.EmitInv (held.foldl TC.emit_one_held st) := by
  induction held with
  | nil => intro st h; exact h
  | cons hd tl ih =>
    intro st h
    rw [List.foldl_cons, emit_one_held_eq]
    exact ih _ (emit_segment_inv st hd.text hd.start_ms hd.end_ms hd.speaker_id h)

theorem emitApply_inv (st : TC.EmitState) (op : TC.EmitOp) (h : TC.EmitInv st) :
    TC.EmitInv (TC.emitApply st op) := by
  cases op with
  | emitSeg t s e k => exact emit_segment_inv st t s e k h
  | hold hd => exact ⟨h.1, h.2.1, h.2.2⟩
  | emitHeld =>
    have h2 := emit_held_fold_inv st.held_segments st h
    exact ⟨h2.1, h2.2.1, h2.2.2⟩

theorem emitFold_inv (ops : List TC.EmitOp) : ∀ st : TC.EmitState,
    TC.EmitInv st → TC.EmitInv (ops.foldl TC.emitApply st) := by
  induction ops with
  | nil => intro st h; exact h
  | cons op rest ih => intro st h; exact ih _ (emitApply_inv st op h)

/-- C1 (confirmed): after any sequence of emission operations
(`emit_segment` calls, held pushes, `emit_held_segments` flushes) the
emitted list satisfies `start_ms < end_ms` for every segment and
`chunks[i].end_ms ≤ chunks[i+1].start_ms` for consecutive segments, and
the watermark `last_emitted_end_ms` equals the maximum emitted `end_ms`
so far (`0` initially) and never decreases under a further operation. -/
theorem C1_emitted_segments_ordered (ops : List TC.EmitOp) :
    TC.EmitInv (TC.emitRun ops) ∧
      ∀ op, (TC.emitRun ops).last_emitted_end_ms ≤
        (TC.emitApply (TC.emitRun ops) op).last_emitted_end_ms := by
  refine ⟨emitFold_inv ops TC.emitInit ?_, fun op => emitApply_mono _ op⟩
  exact ⟨List.chain'_nil, fun s hs => absurd hs (List.not_mem_nil s), rfl⟩

/-! ### End-of-stream flush (C8) -/

/-- C8 (confirmed): at end of stream, when fewer than 0.5 s (8000
samples) of new audio remain beyond the already-transcribed overlap
prefix, the final flush leaves the ASR call counter unchanged (the ASR
is never invoked — the code in fact skips ASR below 1 s,
transcription_controller.cpp:229-232) and the segments it emits are
exactly those produced by `emit_held_segments` on the pending held
segments, which applies the `last_emitted_end_ms` trim rule. -/
theorem C8_short_flush_skips_asr (ov : Nat) (asr : List Int → List TC.WSeg)
    (spk : TC.WSeg → Int) (st : TC.ProcState)
    (h : st.audio_buffer.length -
        (if st.windows_processed > 0 then
          min (TC.overlapSamples ov) st.audio_buffer.length else 0) < 8000) :
    (TC.final_flush ov asr spk st).asr_calls = st.asr_calls ∧
    (TC.final_flush ov asr spk st).emit.all_segments
      = (TC.emit_held_segments st.emit).all_segments ∧
    (TC.final_flush ov asr spk st).emit.held_segments = [] := by
  have h16 : st.audio_buffer.length -
      (if st.windows_processed > 0 then
        min (TC.overlapSamples ov) st.audio_buffer.length else 0) < 16000 :=
    Nat.lt_of_lt_of_le h (by norm_num)
  unfold TC.final_flush
  by_cases hb : st.audio_buffer.isEmpty
  · rw [if_pos hb]
    exact ⟨rfl, rfl, rfl⟩
  · rw [if_neg hb]
    unfold TC.process_buffer
    dsimp only
    rw [if_pos h16]
    unfold TC.slide_window
    dsimp only
    split_ifs
    · exact ⟨rfl, by simp [TC.emit_held_segments], by simp [TC.emit_held_segments]⟩
    · exact ⟨rfl, by simp [TC.emit_held_segments], by simp [TC.emit_held_segments]⟩

/-- Closed witness for C8: a state holding one held segment and 1/160 s
of unprocessed audio. -/
theorem C8_short_flush_skips_asr_witness :
    ((TC.ProcState.mk (List.replicate 100 0) 0 0
        (TC.EmitState.mk [] [⟨"tail", 1000, 1500, 0⟩] 0) 0).audio_buffer.length -
      (if (TC.ProcState.mk (List.replicate 100 0) 0 0
            (TC.EmitState.mk [] [⟨"tail", 1000, 1500, 0⟩] 0) 0).windows_processed > 0 then
        min (TC.overlapSamples 5)
          (TC.ProcState.mk (List.replicate 100 0) 0 0
            (TC.EmitState.mk [] [⟨"tail", 1000, 1500, 0⟩] 0) 0).audio_buffer.length
       else 0) < 8000) ∧
    (TC.final_flush 5 (fun _ => []) (fun _ => 0)
        (TC.ProcState.mk (List.replicate 100 0) 0 0
          (TC.EmitState.mk [] [⟨"tail", 1000, 1500, 0⟩] 0) 0)).asr_calls =
      (TC.ProcState.mk (List.replicate 100 0) 0 0
        (TC.EmitState.mk [] [⟨"tail", 1000, 1500, 0⟩] 0) 0).asr_calls := by
  refine ⟨by simp, ?_⟩
  exact (C8_short_flush_skips_asr 5 (fun _ => []) (fun _ => 0) _ (by simp)).1

/-! ### Clusterer branch lemmas (C3, C4) -/

theorem cosine_pair (a b c d : ℝ) (h1 : 0 < a * a + b * b) (h2 : 0 < c * c + d * d) :
    Diar.cosine [a, b] [c, d] =
      (a * c + b * d) /
        (Real.sqrt (a * a + b * b) * Real.sqrt (c * c + d * d) + 1 / 100000000) := by
  unfold Diar.cosine
  rw [if_neg (by norm_num)]
  dsimp only
  rw [if_neg ?hpos]
  case hpos =>
    simp only [List.zipWith_cons_cons, List.zipWith_nil, List.map_cons, List.map_nil,
      List.sum_cons, List.sum_nil, add_zero, not_or, not_le]
    exact ⟨h1, h2⟩
  simp only [List.zipWith_cons_cons, List.zipWith_nil, List.map_cons, List.map_nil,
    List.sum_cons, List.sum_nil, add_zero]

theorem cosine_01_10 : Diar.cosine [(0 : ℝ), 1] [1, 0] = 0 := by
  rw [cosine_pair 0 1 1 0 (by norm_num) (by norm_num)]
  norm_num

theorem cosine_3545_10 :
    Diar.cosine [(3 / 5 : ℝ), 4 / 5] [1, 0] = (3 / 5) / (1 + 1 / 100000000) := by
  rw [cosine_pair (3/5) (4/5) 1 0 (by norm_num) (by norm_num)]
  have h1 : (3 / 5 : ℝ) * (3 / 5) + 4 / 5 * (4 / 5) = 1 := by norm_num
  have h2 : (1 : ℝ) * 1 + 0 * 0 = 1 := by norm_num
  rw [h1, h2, Real.sqrt_one]
  norm_num

/-- `assign`, first-embedding branch (speaker_cluster.cpp:606-611). -/
theorem assign_first (st : Diar.ClusterState) (e : List ℝ)
    (he : e.isEmpty = false) (hc : st.centroids.isEmpty = true) :
    Diar.assign st e =
      (0, { st with centroids := [e], current := 0, frames_since_change := 0 }) := by
  unfold Diar.assign
  rw [if_neg (by simp [he]), if_pos hc]

/-- `assign`, stay-with-current branch (speaker_cluster.cpp:638-646). -/
theorem assign_stay (st : Diar.ClusterState) (e : List ℝ)
    (he : e.isEmpty = false) (hc : st.centroids.isEmpty = false)
    (hcur : 0 ≤ st.current ∧
      st.current < ((st.centroids.map (fun c => Diar.cosine e c)).length : Int))
    (hsim : (st.centroids.map (fun c => Diar.cosine e c)).getD st.current.toNat 0 ≥ st.thr) :
    Diar.assign st e =
      (st.current,
       { st with
         centroids := st.centroids.set st.current.toNat
           (Diar.blendUpdate (st.centroids.getD st.current.toNat []) e)
         frames_since_change := st.frames_since_change + 1 }) := by
  unfold Diar.assign
  rw [if_neg (by simp [he]), if_neg (by simp [hc])]
  dsimp only
  rw [if_pos hcur, if_pos hsim]

/-- `assign`, fall-through branch: stay with the current speaker even
though its similarity is below the threshold
(speaker_cluster.cpp:666-668). -/
theorem assign_default (st : Diar.ClusterState) (e : List ℝ)
    (he : e.isEmpty = false) (hc : st.centroids.isEmpty = false)
    (hcur : 0 ≤ st.current ∧
      st.current < ((st.centroids.map (fun c => Diar.cosine e c)).length : Int))
    (hsim : ¬ (st.centroids.map (fun c => Diar.cosine e c)).getD st.current.toNat 0 ≥ st.thr)
    (hswitch : ¬ ((Diar.bestScan (st.centroids.map (fun c => Diar.cosine e c))).1 ≠ st.current ∧
        (Diar.bestScan (st.centroids.map (fun c => Diar.cosine e c))).2 >
          (st.centroids.map (fun c => Diar.cosine e c)).getD st.current.toNat 0 + 0.15 ∧
        st.frames_since_change ≥ 3))
    (hnew : ¬ ((st.centroids.length : Int) < st.maxSpeakers ∧
        (Diar.bestScan (st.centroids.map (fun c => Diar.cosine e c))).2 < st.thr + 0.10 ∧
        st.frames_since_change ≥ 3)) :
    Diar.assign st e =
      (st.current, { st with frames_since_change := st.frames_since_change + 1 }) := by
  unfold Diar.assign
  rw [if_neg (by simp [he]), if_neg (by simp [hc])]
  dsimp only
  rw [if_pos hcur, if_neg hsim, if_neg hswitch, if_neg hnew]

/-- For a non-empty embedding and a well-formed (reachable) state, the
index `assign` returns is always the current speaker of the state it
leaves behind. -/
theorem assign_returns_current (st : Diar.ClusterState) (e : List ℝ)
    (he : e.isEmpty = false) (hwf : Diar.WF st) :
    (Diar.assign st e).1 = (Diar.assign st e).2.current := by
  unfold Diar.assign
  rw [if_neg (by simp [he])]
  by_cases hc : st.centroids.isEmpty
  · rw [if_pos hc]
  · rw [if_neg hc]
    dsimp only
    have hcur : 0 ≤ st.current ∧
        st.current < ((st.centroids.map (fun c => Diar.cosine e c)).length : Int) := by
      rcases hwf with ⟨h1, _⟩ | h
      · rw [h1] at hc; simp at hc
      · simpa [List.length_map] using h
    rw [if_pos hcur]
    split_ifs <;> rfl

theorem bestScan_single (c : ℝ) (h : c > -1) : Diar.bestScan [c] = (0, c) := by
  unfold Diar.bestScan
  rw [List.foldl_cons, List.foldl_nil]
  dsimp only
  rw [if_pos h]
  simp

/-- C3 (counterexample): after a fresh clusterer with `max_speakers = 2`
and threshold `1/2` takes `[1,0]` (creating centroid 0) and then the
orthogonal `[0,1]`, `assign` returns speaker 0 through its marginal-stay
fall-through, yet the similarity to centroid 0 is `0 < 1/2` and only one
of the two allowed centroids exists — so neither disjunct of the claimed
invariant holds. -/
theorem C3_counterexample :
    ¬ (Diar.cosine [(0 : ℝ), 1]
          ((Diar.assign (Diar.assign (Diar.clusterInit 2 (1/2)) [1, 0]).2 [0, 1]).2.centroids.getD
            (Diar.assign (Diar.assign (Diar.clusterInit 2 (1/2)) [1, 0]).2 [0, 1]).1.toNat [])
          ≥ (Diar.assign (Diar.assign (Diar.clusterInit 2 (1/2)) [1, 0]).2 [0, 1]).2.thr ∨
        (((Diar.assign (Diar.assign (Diar.clusterInit 2 (1/2)) [1, 0]).2 [0, 1]).2.centroids.length : Int)
            = (Diar.assign (Diar.assign (Diar.clusterInit 2 (1/2)) [1, 0]).2 [0, 1]).2.maxSpeakers ∧
          (Diar.assign (Diar.assign (Diar.clusterInit 2 (1/2)) [1, 0]).2 [0, 1]).1
            = (Diar.assign (Diar.assign (Diar.clusterInit 2 (1/2)) [1, 0]).2 [0, 1]).2.current)) := by
  have h1 : (Diar.assign (Diar.clusterInit 2 (1/2)) [1, 0]).2
      = (⟨[[(1 : ℝ), 0]], 0, 0, 2, 1/2⟩ : Diar.ClusterState) := by
    rw [assign_first (Diar.clusterInit 2 (1/2)) [1, 0] rfl rfl]
    rfl
  have hmap : (([[(1 : ℝ), 0]] : List (List ℝ)).map (fun c => Diar.cosine [0, 1] c)) = [0] := by
    simp only [List.map_cons, List.map_nil, cosine_01_10]
  have h2 : Diar.assign (⟨[[(1 : ℝ), 0]], 0, 0, 2, 1/2⟩ : Diar.ClusterState) [0, 1]
      = (0, (⟨[[(1 : ℝ), 0]], 0, 1, 2, 1/2⟩ : Diar.ClusterState)) := by
    rw [assign_default (⟨[[(1 : ℝ), 0]], 0, 0, 2, 1/2⟩ : Diar.ClusterState) [0, 1]
      rfl rfl ?hcur ?hsim ?hswitch ?hnew]
    case _ => rfl
    case hcur => rw [hmap]; norm_num
    case hsim =>
      rw [hmap]
      simp only [Int.toNat_zero, List.getD_cons_zero]
      intro habs
      norm_num at habs
    case hswitch =>
      rw [hmap, bestScan_single 0 (by norm_num)]
      simp only [Int.toNat_zero, List.getD_cons_zero]
      intro habs
      exact absurd rfl habs.1
    case hnew =>
      intro habs
      norm_num at habs
  rw [h1, h2]
  simp only [Int.toNat_zero, List.getD_cons_zero, cosine_01_10, List.length_cons,
    List.length_nil]
  intro habs
  rcases habs with habs | ⟨habs, _⟩
  · norm_num at habs
  · norm_num at habs

/-- C3 (amended, the corrected claim): for every reachable (well-formed)
clusterer state and every non-empty embedding `e`, immediately after
`assign(e)` returns `s`, either the cosine similarity between `e` and
`centroids[s]` is ≥ the configured threshold, or `s` equals the current
speaker — the hysteresis fallback keeps (or designates) the current
speaker regardless of whether the centroid list is full, so the
`len(centroids) == max_speakers` side condition of the original claim
had to be dropped. -/
theorem C3_assign_amended (st : Diar.ClusterState) (e : List ℝ)
    (hwf : Diar.WF st) (he : e.isEmpty = false) :
    Diar.cosine e
        ((Diar.assign st e).2.centroids.getD (Diar.assign st e).1.toNat []) ≥ st.thr ∨
      (Diar.assign st e).1 = (Diar.assign st e).2.current :=
  Or.inr (assign_returns_current st e he hwf)

/-- Closed witness for the amended C3 at a concrete reachable state. -/
theorem C3_assign_amended_witness :
    Diar.WF (⟨[[(1 : ℝ), 0]], 0, 0, 2, 1/2⟩ : Diar.ClusterState) ∧
    ([(1 : ℝ), 0] : List ℝ).isEmpty = false ∧
    (Diar.cosine [(1 : ℝ), 0]
        ((Diar.assign (⟨[[(1 : ℝ), 0]], 0, 0, 2, 1/2⟩ : Diar.ClusterState) [1, 0]).2.centroids.getD
          (Diar.assign (⟨[[(1 : ℝ), 0]], 0, 0, 2, 1/2⟩ : Diar.ClusterState) [1, 0]).1.toNat [])
        ≥ (1/2 : ℝ) ∨
      (Diar.assign (⟨[[(1 : ℝ), 0]], 0, 0, 2, 1/2⟩ : Diar.ClusterState) [1, 0]).1
        = (Diar.assign (⟨[[(1 : ℝ), 0]], 0, 0, 2, 1/2⟩ : Diar.ClusterState) [1, 0]).2.current) :=
  ⟨Or.inr ⟨by norm_num, by norm_num⟩, rfl,
    C3_assign_amended (⟨[[(1 : ℝ), 0]], 0, 0, 2, 1/2⟩ : Diar.ClusterState) [1, 0]
      (Or.inr ⟨by norm_num, by norm_num⟩) rfl⟩

/-! ### Centroid updates (C4) -/

theorem getD_range_map (g : Nat → ℝ) (n i : Nat) (h : i < n) :
    ((List.range n).map g).getD i 0 = g i := by
  rw [List.getD_eq_getElem _ _ (by simpa using h)]
  simp

theorem getD_set_self (l : List (List ℝ)) (i : Nat) (x : List ℝ) (h : i < l.length) :
    (l.set i x).getD i [] = x := by
  rw [List.getD_eq_getElem _ _ (by simpa using h)]
  simp

/-- C4 (amended, the corrected claim): whenever a centroid is updated by
an assignment, the resulting centroid is exactly the stated blend —
online `(1 − α)·centroid_old + α·embedding` with `α = 0.05`
(speaker_cluster.cpp:640-643), offline the running mean
`(centroid·count + embedding)/(count + 1)`
(speaker_cluster.cpp:1048-1054) — but with NO renormalisation to unit
length: the code stores the raw blend (the original claim's
"followed by renormalization to unit L2 length" is refuted by
`C4_counterexample`). -/
theorem C4_centroid_update_blend :
    (∀ (st : Diar.ClusterState) (e : List ℝ),
      e.isEmpty = false → st.centroids.isEmpty = false →
      (0 ≤ st.current ∧
        st.current < ((st.centroids.map (fun c => Diar.cosine e c)).length : Int)) →
      (st.centroids.map (fun c => Diar.cosine e c)).getD st.current.toNat 0 ≥ st.thr →
      ((Diar.assign st e).2.centroids.getD st.current.toNat []).length
          = (st.centroids.getD st.current.toNat []).length ∧
      ∀ i, i < (st.centroids.getD st.current.toNat []).length →
        ((Diar.assign st e).2.centroids.getD st.current.toNat []).getD i 0
          = (1 - 0.05) * (st.centroids.getD st.current.toNat []).getD i 0
            + 0.05 * e.getD i 0) ∧
    (∀ (mx : Int) (thr : ℝ) (acc : Diar.ClusterOut) (f : Diar.DFrame),
      ¬ ((Diar.bestFrom f.embedding acc.centroids).2 < thr ∧
          (acc.centroids.length : Int) < mx) →
      (Diar.bestFrom f.embedding acc.centroids).1.toNat < acc.centroids.length →
      ((Diar.cluster_step mx thr acc f).centroids.getD
            (Diar.bestFrom f.embedding acc.centroids).1.toNat []).length
          = (acc.centroids.getD (Diar.bestFrom f.embedding acc.centroids).1.toNat []).length ∧
      ∀ d, d < (acc.centroids.getD (Diar.bestFrom f.embedding acc.centroids).1.toNat []).length →
        ((Diar.cluster_step mx thr acc f).centroids.getD
            (Diar.bestFrom f.embedding acc.centroids).1.toNat []).getD d 0
          = ((acc.centroids.getD (Diar.bestFrom f.embedding acc.centroids).1.toNat []).getD d 0
                * ((acc.counts.getD (Diar.bestFrom f.embedding acc.centroids).1.toNat 0 : Int) : ℝ)
              + f.embedding.getD d 0)
            / (((acc.counts.getD (Diar.bestFrom f.embedding acc.centroids).1.toNat 0 : Int) : ℝ) + 1)) := by
  constructor
  · intro st e he hc hcur hsim
    have hlt : st.current.toNat < st.centroids.length := by
      obtain ⟨h1, h2⟩ := hcur
      rw [List.length_map] at h2
      omega
    rw [assign_stay st e he hc hcur hsim]
    dsimp only
    rw [getD_set_self _ _ _ hlt]
    unfold Diar.blendUpdate
    refine ⟨by simp, ?_⟩
    intro i hi
    rw [getD_range_map _ _ _ hi]
    norm_num
  · intro mx thr acc f hbr hbs
    unfold Diar.cluster_step
    rw [if_neg hbr]
    dsimp only
    rw [getD_set_self _ _ _ hbs]
    refine ⟨by simp, ?_⟩
    intro d hd
    rw [getD_range_map _ _ _ hd]

/-- C4 (counterexample): on a reachable state with centroid `[1,0]` and
the unit embedding `[3/5, 4/5]`, the stay branch stores the raw blend
`[0.98, 0.04]`, whose squared L2 norm is `0.962 ≠ 1`; in particular it
differs from the renormalised blend that the claim asserts. -/
theorem C4_counterexample :
    (Diar.assign (⟨[[(1 : ℝ), 0]], 0, 0, 2, 1/2⟩ : Diar.ClusterState)
        [3/5, 4/5]).2.centroids.getD 0 [] = [0.98, 0.04] ∧
    Diar.l2normSq [(0.98 : ℝ), 0.04] = 0.962 ∧
    (Diar.assign (⟨[[(1 : ℝ), 0]], 0, 0, 2, 1/2⟩ : Diar.ClusterState)
        [3/5, 4/5]).2.centroids.getD 0 []
      ≠ Diar.renormalize [(0.98 : ℝ), 0.04] := by
  have hmap : (([[(1 : ℝ), 0]] : List (List ℝ)).map
      (fun c => Diar.cosine [3/5, 4/5] c)) = [(3 / 5) / (1 + 1 / 100000000)] := by
    simp only [List.map_cons, List.map_nil, cosine_3545_10]
  have heval : (Diar.assign (⟨[[(1 : ℝ), 0]], 0, 0, 2, 1/2⟩ : Diar.ClusterState)
      [3/5, 4/5]).2.centroids.getD 0 [] = [0.98, 0.04] := by
    rw [assign_stay (⟨[[(1 : ℝ), 0]], 0, 0, 2, 1/2⟩ : Diar.ClusterState) [3/5, 4/5]
      rfl rfl (by rw [hmap]; norm_num)
      (by rw [hmap]; simp only [Int.toNat_zero, List.getD_cons_zero]; norm_num)]
    dsimp only
    simp only [Int.toNat_zero, List.getD_cons_zero, List.set_cons_zero]
    unfold Diar.blendUpdate
    norm_num [List.range_succ]
  have hnorm : Diar.l2normSq [(0.98 : ℝ), 0.04] = 0.962 := by
    unfold Diar.l2normSq
    norm_num
  refine ⟨heval, hnorm, ?_⟩
  rw [heval]
  intro hEq
  unfold Diar.renormalize at hEq
  rw [hnorm] at hEq
  simp only [List.map_cons, List.map_nil, List.cons.injEq] at hEq
  obtain ⟨hhead, _⟩ := hEq
  have hpos : (0 : ℝ) < Real.sqrt 0.962 := Real.sqrt_pos.mpr (by norm_num)
  have hs1 : Real.sqrt 0.962 = 1 := by
    have h98 : (0.98 : ℝ) = 0.98 * Real.sqrt 0.962 := by
      have h := hhead.symm
      rw [div_eq_iff (ne_of_gt hpos)] at h
      exact h
    have h1 : (0.98 : ℝ) * 1 = 0.98 * Real.sqrt 0.962 := by
      rw [mul_one]
      exact h98
    have := mul_left_cancel₀ (by norm_num : (0.98 : ℝ) ≠ 0) h1
    linarith
  have : (0.962 : ℝ) = 1 := by
    have hsq := Real.sq_sqrt (by norm_num : (0 : ℝ) ≤ 0.962)
    rw [hs1] at hsq
    simpa using hsq.symm
  norm_num at this

/-- Closed witness for the amended C4 at concrete inputs (online blend at
index 0, offline running mean at index 0). -/
theorem C4_centroid_update_blend_witness :
    ((Diar.assign (⟨[[(1 : ℝ), 0]], 0, 0, 2, 1/2⟩ : Diar.ClusterState)
        [3/5, 4/5]).2.centroids.getD 0 []).getD 0 0
      = (1 - 0.05) * ((([[(1 : ℝ), 0]] : List (List ℝ)).getD 0 []).getD 0 0)
        + 0.05 * (([3/5, 4/5] : List ℝ).getD 0 0) ∧
    ((Diar.cluster_step 1 (1/2) ⟨[], [[(1 : ℝ), 0]], [1]⟩
        ⟨0, 1000, [0, 1], -1, 0⟩).centroids.getD 0 []).getD 0 0
      = ((([[(1 : ℝ), 0]] : List (List ℝ)).getD 0 []).getD 0 0 * ((1 : Int) : ℝ)
          + (([0, 1] : List ℝ).getD 0 0)) / (((1 : Int) : ℝ) + 1) := by
  constructor
  · have h := (C4_centroid_update_blend.1
      (⟨[[(1 : ℝ), 0]], 0, 0, 2, 1/2⟩ : Diar.ClusterState) [3/5, 4/5] rfl rfl
      (by simp only [List.map_cons, List.map_nil, cosine_3545_10]; norm_num)
      (by simp only [List.map_cons, List.map_nil, cosine_3545_10, Int.toNat_zero,
            List.getD_cons_zero]
          norm_num)).2 0 (by norm_num)
    simpa using h
  · have hb : Diar.bestFrom ([0, 1] : List ℝ) [[(1 : ℝ), 0]]
        = (0, Diar.cosine [0, 1] [[(1 : ℝ), 0]].head!) := rfl
    have h := (C4_centroid_update_blend.2 1 (1/2) ⟨[], [[(1 : ℝ), 0]], [1]⟩
      ⟨0, 1000, [0, 1], -1, 0⟩
      (by
        intro habs
        have h2 := habs.2
        norm_num at h2)
      (by
        show (Diar.bestFrom ([0, 1] : List ℝ) [[(1 : ℝ), 0]]).1.toNat < 1
        rw [hb]
        norm_num)).2 0 (by
        show 0 < (([[(1 : ℝ), 0]] : List (List ℝ)).getD
          (Diar.bestFrom ([0, 1] : List ℝ) [[(1 : ℝ), 0]]).1.toNat []).length
        rw [hb]
        norm_num)
    rw [hb] at h
    simpa using h

/-! ### Offline clustering bounds (C5) -/

theorem bestFromStep_bounds (emb : List ℝ) (rest : List (List ℝ)) :
    ∀ p : (Int × ℝ) × Nat, 0 ≤ p.1.1 → p.1.1 < (p.2 : Int) →
      0 ≤ (rest.foldl (Diar.bestFromStep emb) p).1.1 ∧
      (rest.foldl (Diar.bestFromStep emb) p).1.1
        < ((rest.foldl (Diar.bestFromStep emb) p).2 : Int) ∧
      (rest.foldl (Diar.bestFromStep emb) p).2 = p.2 + rest.length := by
  induction rest with
  | nil =>
    intro p h1 h2
    exact ⟨h1, h2, by simp⟩
  | cons c cs ih =>
    intro p h1 h2
    rw [List.foldl_cons]
    by_cases hgt : Diar.cosine emb c > p.1.2
    · have hstep : Diar.bestFromStep emb p c = (((p.2 : Int), Diar.cosine emb c), p.2 + 1) := by
        unfold Diar.bestFromStep
        rw [if_pos hgt]
      rw [hstep]
      obtain ⟨a1, a2, a3⟩ := ih (((p.2 : Int), Diar.cosine emb c), p.2 + 1)
        (Int.natCast_nonneg _) (by dsimp only; exact_mod_cast Nat.lt_succ_self p.2)
      refine ⟨a1, a2, ?_⟩
      rw [a3]
      simp only [List.length_cons]
      omega
    · have hstep : Diar.bestFromStep emb p c = (p.1, p.2 + 1) := by
        unfold Diar.bestFromStep
        rw [if_neg hgt]
      rw [hstep]
      obtain ⟨a1, a2, a3⟩ := ih (p.1, p.2 + 1) h1
        (lt_trans h2 (by dsimp only; exact_mod_cast Nat.lt_succ_self p.2))
      refine ⟨a1, a2, ?_⟩
      rw [a3]
      simp only [List.length_cons]
      omega

theorem bestFrom_bounds (emb : List ℝ) (centroids : List (List ℝ)) (h : centroids ≠ []) :
    0 ≤ (Diar.bestFrom emb centroids).1 ∧
      (Diar.bestFrom emb centroids).1 < (centroids.length : Int) := by
  match centroids, h with
  | c0 :: rest, _ =>
    obtain ⟨a1, a2, a3⟩ := bestFromStep_bounds emb rest ((0, Diar.cosine emb c0), 1)
      (by norm_num) (by norm_num)
    have hb : Diar.bestFrom emb (c0 :: rest)
        = (rest.foldl (Diar.bestFromStep emb) ((0, Diar.cosine emb c0), 1)).1 := rfl
    rw [hb]
    refine ⟨a1, ?_⟩
    rw [a3] at a2
    rw [List.length_cons]
    have := a2
    push_cast at this ⊢
    omega

/-- In the create-a-new-speaker branch (speaker_cluster.cpp:1032-1042)
the step appends a fresh centroid/count and labels the frame with the
new index. -/
theorem cluster_step_new (mx : Int) (thr : ℝ) (acc : Diar.ClusterOut) (f : Diar.DFrame)
    (hbr : (Diar.bestFrom f.embedding acc.centroids).2 < thr ∧
      (acc.centroids.length : Int) < mx) :
    Diar.cluster_step mx thr acc f =
      ⟨acc.frames ++ [{ f with speaker_id := (acc.centroids.length : Int), confidence := 1 }],
       acc.centroids ++ [f.embedding], acc.counts ++ [1]⟩ := by
  unfold Diar.cluster_step
  rw [if_pos hbr]

/-- In the assign-to-best branch (speaker_cluster.cpp:1043-1055) the
step labels the frame with the best index and keeps the number of
centroids unchanged. -/
theorem cluster_step_else (mx : Int) (thr : ℝ) (acc : Diar.ClusterOut) (f : Diar.DFrame)
    (hbr : ¬ ((Diar.bestFrom f.embedding acc.centroids).2 < thr ∧
      (acc.centroids.length : Int) < mx)) :
    (Diar.cluster_step mx thr acc f).frames
      = acc.frames ++
        [{ f with
            speaker_id := (Diar.bestFrom f.embedding acc.centroids).1
            confidence := (Diar.bestFrom f.embedding acc.centroids).2 }] ∧
    (Diar.cluster_step mx thr acc f).centroids.length = acc.centroids.length := by
  unfold Diar.cluster_step
  rw [if_neg hbr]
  exact ⟨rfl, by simp⟩

theorem cluster_fold_inv (mx : Int) (thr : ℝ) (rest : List Diar.DFrame) :
    ∀ acc : Diar.ClusterOut,
      1 ≤ acc.centroids.length → (acc.centroids.length : Int) ≤ mx →
      (∀ f ∈ acc.frames, 0 ≤ f.speaker_id ∧ f.speaker_id < (acc.centroids.length : Int)) →
      1 ≤ (rest.foldl (Diar.cluster_step mx thr) acc).centroids.length ∧
      ((rest.foldl (Diar.cluster_step mx thr) acc).centroids.length : Int) ≤ mx ∧
      (rest.foldl (Diar.cluster_step mx thr) acc).frames.length
        = acc.frames.length + rest.length ∧
      ∀ f ∈ (rest.foldl (Diar.cluster_step mx thr) acc).frames,
        0 ≤ f.speaker_id ∧
        f.speaker_id < ((rest.foldl (Diar.cluster_step mx thr) acc).centroids.length : Int) := by
  induction rest with
  | nil =>
    intro acc h1 h2 h3
    exact ⟨h1, h2, by simp, h3⟩
  | cons f fs ih =>
    intro acc h1 h2 h3
    rw [List.foldl_cons]
    by_cases hbr : (Diar.bestFrom f.embedding acc.centroids).2 < thr ∧
        (acc.centroids.length : Int) < mx
    · rw [cluster_step_new mx thr acc f hbr]
      obtain ⟨b1, b2, b3, b4⟩ := ih
        ⟨acc.frames ++ [{ f with speaker_id := (acc.centroids.length : Int), confidence := 1 }],
         acc.centroids ++ [f.embedding], acc.counts ++ [1]⟩
        (by simp)
        (by simp only [List.length_append, List.length_cons, List.length_nil]; push_cast; omega)
        (by
          intro g hg
          simp only [List.length_append, List.length_cons, List.length_nil]
          rcases List.mem_append.mp hg with hm | hm
          · obtain ⟨c1, c2⟩ := h3 g hm
            refine ⟨c1, ?_⟩
            push_cast
            omega
          · rcases List.mem_singleton.mp hm with rfl
            refine ⟨Int.natCast_nonneg _, ?_⟩
            push_cast
            omega)
      refine ⟨b1, b2, ?_, b4⟩
      rw [b3]
      simp only [List.length_append, List.length_cons, List.length_nil]
      omega
    · obtain ⟨he1, he2⟩ := cluster_step_else mx thr acc f hbr
      have hbest := bestFrom_bounds f.embedding acc.centroids
        (by intro habs; rw [habs] at h1; simp at h1)
      obtain ⟨b1, b2, b3, b4⟩ := ih (Diar.cluster_step mx thr acc f)
        (by rw [he2]; exact h1)
        (by rw [he2]; exact h2)
        (by
          intro g hg
          rw [he1] at hg
          rw [he2]
          rcases List.mem_append.mp hg with hm | hm
          · exact h3 g hm
          · rcases List.mem_singleton.mp hm with rfl
            exact ⟨hbest.1, hbest.2⟩)
      refine ⟨b1, b2, ?_, b4⟩
      rw [b3, he1]
      simp only [List.length_append, List.length_cons, List.length_nil]
      omega

/-- C5 (confirmed): for every non-empty frame list and `max_speakers ≥
1`, `cluster_frames` labels every frame with a speaker id in
`[0, number-of-clusters-created)`, creates at most `max_speakers`
clusters, and leaves no frame at `-1` (it also keeps exactly one output
frame per input frame). -/
theorem C5_cluster_frames_ids (mx : Int) (thr : ℝ) (frames : List Diar.DFrame)
    (hne : frames ≠ []) (hmx : 1 ≤ mx) :
    (Diar.cluster_frames mx thr frames).frames.length = frames.length ∧
    1 ≤ (Diar.cluster_frames mx thr frames).centroids.length ∧
    ((Diar.cluster_frames mx thr frames).centroids.length : Int) ≤ mx ∧
    ∀ f ∈ (Diar.cluster_frames mx thr frames).frames,
      0 ≤ f.speaker_id ∧
      f.speaker_id < ((Diar.cluster_frames mx thr frames).centroids.length : Int) := by
  match frames, hne with
  | f0 :: rest, _ =>
    have hcf : Diar.cluster_frames mx thr (f0 :: rest)
        = rest.foldl (Diar.cluster_step mx thr)
            ⟨[{ f0 with speaker_id := 0, confidence := 1 }], [f0.embedding], [1]⟩ := rfl
    rw [hcf]
    obtain ⟨b1, b2, b3, b4⟩ := cluster_fold_inv mx thr rest
      ⟨[{ f0 with speaker_id := 0, confidence := 1 }], [f0.embedding], [1]⟩
      (by simp) (by simpa using hmx)
      (by
        intro g hg
        rcases List.mem_singleton.mp hg with rfl
        simp)
    refine ⟨?_, b1, b2, b4⟩
    rw [b3]
    simp only [List.length_cons, List.length_nil]
    omega

/-- Closed witness for C5 on a one-frame list with `max_speakers = 2`. -/
theorem C5_cluster_frames_ids_witness :
    (([⟨0, 1000, [(1 : ℝ), 0], -1, 0⟩] : List Diar.DFrame) ≠ []) ∧ ((1 : Int) ≤ 2) ∧
    ∀ f ∈ (Diar.cluster_frames 2 (1/2)
        ([⟨0, 1000, [(1 : ℝ), 0], -1, 0⟩] : List Diar.DFrame)).frames,
      0 ≤ f.speaker_id ∧
      f.speaker_id < ((Diar.cluster_frames 2 (1/2)
        ([⟨0, 1000, [(1 : ℝ), 0], -1, 0⟩] : List Diar.DFrame)).centroids.length : Int) :=
  ⟨by simp, by norm_num,
    (C5_cluster_frames_ids 2 (1/2) ([⟨0, 1000, [(1 : ℝ), 0], -1, 0⟩] : List Diar.DFrame)
      (by simp) (by norm_num)).2.2.2⟩

/-! ### Frame extraction timing (C6) -/

theorem dropWhile_eq_drop (p : (Int × Int) → Bool) (l : List (Int × Int)) :
    ∃ m, m ≤ l.length ∧ l.dropWhile p = l.drop m := by
  induction l with
  | nil => exact ⟨0, by simp, rfl⟩
  | cons a t ih =>
    by_cases hp : p a
    · obtain ⟨m, hm, he⟩ := ih
      refine ⟨m + 1, by simpa using hm, ?_⟩
      simp only [List.dropWhile_cons, hp, if_true, List.drop_succ_cons]
      exact he
    · exact ⟨0, by simp, by simp [List.dropWhile_cons, hp]⟩

theorem faLoop_spec : ∀ (fuel : Nat) (current : Int) (st : Diar.FAState),
    current < st.next_frame_ms + 250 * fuel →
    Diar.samples_to_ms (st.total - st.buffer_len) ≤ st.next_frame_ms - 500 →
    current = Diar.samples_to_ms st.total →
    st.next_frame_ms = 500 + 250 * (st.extracted.length : Int) →
    (∀ n, n < st.extracted.length →
      st.extracted.getD n (0, 0) = ((n : Int) * 250, (n : Int) * 250 + 1000)) →
    (∃ k, k ≤ st.extracted.length ∧ st.frames = st.extracted.drop k) →
    (Diar.faLoop fuel current st).total = st.total ∧
    (Diar.faLoop fuel current st).buffer_len = st.buffer_len ∧
    st.next_frame_ms ≤ (Diar.faLoop fuel current st).next_frame_ms ∧
    current < (Diar.faLoop fuel current st).next_frame_ms + 500 ∧
    (Diar.faLoop fuel current st).next_frame_ms
      = 500 + 250 * ((Diar.faLoop fuel current st).extracted.length : Int) ∧
    (∀ n, n < (Diar.faLoop fuel current st).extracted.length →
      (Diar.faLoop fuel current st).extracted.getD n (0, 0)
        = ((n : Int) * 250, (n : Int) * 250 + 1000)) ∧
    (∃ k, k ≤ (Diar.faLoop fuel current st).extracted.length ∧
      (Diar.faLoop fuel current st).frames
        = (Diar.faLoop fuel current st).extracted.drop k) := by
  intro fuel
  induction fuel with
  | zero =>
    intro current st hfuel hbsm hcur hnext hv hvi
    simp only [Diar.faLoop]
    exact ⟨trivial, trivial, le_refl _, by omega, hnext, hv, hvi⟩
  | succ fuel ih =>
    intro current st hfuel hbsm hcur hnext hv hvi
    have hw2 : Diar.window_ms / 2 = 500 := by norm_num [Diar.window_ms]
    have hh : Diar.hop_ms = 250 := rfl
    simp only [Diar.faLoop, hw2, hh]
    by_cases hle : st.next_frame_ms ≤ current
    · rw [if_pos hle]
      by_cases hbreak : st.next_frame_ms + 500 > current
      · rw [if_pos hbreak]
        exact ⟨rfl, rfl, le_refl _, by omega, hnext, hv, hvi⟩
      · rw [if_neg hbreak]
        have hcond : st.next_frame_ms - 500 ≥ Diar.samples_to_ms (st.total - st.buffer_len) ∧
            st.next_frame_ms + 500 ≤ Diar.samples_to_ms st.total := by
          refine ⟨hbsm, ?_⟩
          rw [← hcur]
          omega
        rw [if_pos hcond]
        dsimp only
        rw [if_neg (by omega :
          ¬ st.next_frame_ms + 250 > current + 250 * 10)]
        have hxval : ((st.next_frame_ms - 500, st.next_frame_ms + 500) : Int × Int)
            = ((st.extracted.length : Int) * 250,
               (st.extracted.length : Int) * 250 + 1000) := by
          simp only [Prod.mk.injEq]
          omega
        obtain ⟨g1, g2, g3, g4, g5, g6, g7⟩ := ih current
          ⟨st.buffer_len, st.total, st.next_frame_ms + 250,
           st.frames ++ [(st.next_frame_ms - 500, st.next_frame_ms + 500)],
           st.extracted ++ [(st.next_frame_ms - 500, st.next_frame_ms + 500)]⟩
          (by dsimp only; omega)
          (by dsimp only; omega)
          (by dsimp only; exact hcur)
          (by
            dsimp only
            rw [List.length_append, List.length_cons, List.length_nil]
            push_cast
            omega)
          (by
            dsimp only
            intro n hn
            rw [List.length_append, List.length_cons, List.length_nil] at hn
            rcases Nat.lt_or_ge n st.extracted.length with hlt | hge
            · rw [List.getD_append _ _ _ _ hlt]
              exact hv n hlt
            · have hn' : n = st.extracted.length := by omega
              rw [List.getD_append_right _ _ _ _ hge, hn']
              simp only [Nat.sub_self, List.getD_cons_zero]
              exact hxval)
          (by
            dsimp only
            obtain ⟨k, hk, hfr⟩ := hvi
            refine ⟨k, ?_, ?_⟩
            · rw [List.length_append]
              omega
            · rw [List.drop_append_of_le_length hk, hfr])
        exact ⟨g1, g2, by dsimp only at g3; omega, g4, g5, g6, g7⟩
    · rw [if_neg hle]
      exact ⟨rfl, rfl, le_refl _, by omega, hnext, hv, hvi⟩

theorem fa_add_audio_inv (st : Diar.FAState) (n : Nat) (h : Diar.FAInv st) :
    Diar.FAInv (Diar.fa_add_audio st n) := by
  obtain ⟨h1, h2, h3, h4, h5, h6⟩ := h
  unfold Diar.fa_add_audio
  by_cases hn : n = 0
  · rw [if_pos hn]
    exact ⟨h1, h2, h3, h4, h5, h6⟩
  · rw [if_neg hn]
    dsimp only
    have hsub : st.total + n - (st.buffer_len + n) = st.total - st.buffer_len := by omega
    obtain ⟨g1, g2, g3, g4, g5, g6, g7⟩ :=
      faLoop_spec
        ((Diar.samples_to_ms (st.total + n) - st.next_frame_ms).toNat + 1)
        (Diar.samples_to_ms (st.total + n))
        ⟨st.buffer_len + n, st.total + n, st.next_frame_ms, st.frames, st.extracted⟩
        (by dsimp only; omega)
        (by dsimp only; rw [hsub]; exact h2)
        (by dsimp only)
        (by dsimp only; exact h4)
        (by dsimp only; exact h5)
        (by dsimp only; exact h6)
    set stL := Diar.faLoop
      ((Diar.samples_to_ms (st.total + n) - st.next_frame_ms).toNat + 1)
      (Diar.samples_to_ms (st.total + n))
      ⟨st.buffer_len + n, st.total + n, st.next_frame_ms, st.frames, st.extracted⟩
      with hstL
    dsimp only at g1 g2 g3 g4 g5 g6 g7
    obtain ⟨m, hm, hdw⟩ := dropWhile_eq_drop
      (fun f => decide (f.2 < Diar.samples_to_ms (st.total + n) - 60 * 1000)) stL.frames
    obtain ⟨k, hk, hfr⟩ := g7
    have hfr2 : stL.frames.dropWhile
        (fun f => decide (f.2 < Diar.samples_to_ms (st.total + n) - 60 * 1000))
          = stL.extracted.drop (k + m) := by
      rw [hdw, hfr, List.drop_drop]
    have hmlen : m ≤ stL.frames.length := hm
    have hframeslen : stL.frames.length = stL.extracted.length - k := by
      rw [hfr, List.length_drop]
    have hkm : k + m ≤ stL.extracted.length := by omega
    have hs2m_sub : ∀ t : Nat, 32000 ≤ t →
        Diar.samples_to_ms (t - 32000) = Diar.samples_to_ms t - 2000 := by
      intro t ht
      simp only [Diar.samples_to_ms]
      omega
    by_cases htrim : stL.buffer_len >
        Diar.ms_to_samples (Diar.window_ms * 2) + Diar.ms_to_samples (Diar.hop_ms * 10)
    · rw [if_pos htrim]
      have hkeep : Diar.ms_to_samples (Diar.window_ms * 2) = 32000 := by decide
      have hkeep10 : Diar.ms_to_samples (Diar.hop_ms * 10) = 40000 := by decide
      rw [hkeep, hkeep10] at htrim
      have htot : 32000 ≤ st.total + n := by omega
      refine ⟨?_, ?_, ?_, ?_, ?_, ?_⟩
      · dsimp only
        rw [hkeep, g1]
        omega
      · dsimp only
        rw [hkeep, g1, hs2m_sub _ htot]
        omega
      · dsimp only
        rw [g1]
        omega
      · dsimp only
        exact g5
      · dsimp only
        exact g6
      · dsimp only
        exact ⟨k + m, hkm, hfr2⟩
    · rw [if_neg htrim]
      refine ⟨?_, ?_, ?_, ?_, ?_, ?_⟩
      · dsimp only
        rw [g1, g2]
        omega
      · dsimp only
        rw [g1, g2, hsub]
        omega
      · dsimp only
        rw [g1]
        omega
      · dsimp only
        exact g5
      · dsimp only
        exact g6
      · dsimp only
        exact ⟨k + m, hkm, hfr2⟩

theorem faInit_inv : Diar.FAInv Diar.faInit := by
  refine ⟨le_refl 0, ?_, ?_, ?_, ?_, ⟨0, by simp [Diar.faInit], by simp [Diar.faInit]⟩⟩
  · norm_num [Diar.faInit, Diar.samples_to_ms, Diar.window_ms]
  · norm_num [Diar.faInit, Diar.samples_to_ms, Diar.window_ms]
  · norm_num [Diar.faInit, Diar.window_ms]
  · intro nn hnn
    simp [Diar.faInit] at hnn

theorem faRun_inv (chunks : List Nat) : Diar.FAInv (Diar.faRun chunks) := by
  have hfold : ∀ (cs : List Nat) (st : Diar.FAState), Diar.FAInv st →
      Diar.FAInv (cs.foldl Diar.fa_add_audio st) := by
    intro cs
    induction cs with
    | nil => intro st h; exact h
    | cons c rest ihc => intro st h; exact ihc _ (fa_add_audio_inv st c h)
  exact hfold chunks Diar.faInit faInit_inv

/-- C6 (confirmed): for every sequence of `add_audio` calls (with the
controller's configuration: `hop_ms = 250`, `window_ms = 1000`), the
n-th extracted frame is exactly `(n · hop_ms, n · hop_ms + window_ms)` —
no extraction centre is ever skipped — so every frame satisfies
`t_end_ms − t_start_ms = window_ms`, and the frames still stored (a
suffix of the extracted ones after history trimming) have adjacent start
times exactly `hop_ms` apart. -/
theorem C6_frame_extraction_times (chunks : List Nat) :
    (∀ n, n < (Diar.faRun chunks).extracted.length →
      (Diar.faRun chunks).extracted.getD n (0, 0)
        = ((n : Int) * 250, (n : Int) * 250 + 1000)) ∧
    (∃ k, (Diar.faRun chunks).frames = (Diar.faRun chunks).extracted.drop k) ∧
    (∀ f ∈ (Diar.faRun chunks).frames, f.2 - f.1 = 1000) ∧
    List.Chain' (fun a b => b.1 = a.1 + 250) (Diar.faRun chunks).frames := by
  obtain ⟨_, _, _, _, h5, ⟨k, hk, hfr⟩⟩ := faRun_inv chunks
  have hlen : (Diar.faRun chunks).frames.length
      = (Diar.faRun chunks).extracted.length - k := by
    rw [hfr, List.length_drop]
  have hval : ∀ j, j < (Diar.faRun chunks).frames.length →
      (Diar.faRun chunks).frames.getD j (0, 0)
        = (((k + j : Nat) : Int) * 250, ((k + j : Nat) : Int) * 250 + 1000) := by
    intro j hj
    have hkj : k + j < (Diar.faRun chunks).extracted.length := by omega
    have hj' : j < ((Diar.faRun chunks).extracted.drop k).length := by
      rw [List.length_drop]
      omega
    rw [hfr, List.getD_eq_getElem _ _ hj', List.getElem_drop,
      ← List.getD_eq_getElem _ (0, 0) (by simpa using hkj)]
    exact h5 (k + j) hkj
  refine ⟨h5, ⟨k, hfr⟩, ?_, ?_⟩
  · intro f hf
    obtain ⟨i, hi, hival⟩ := List.mem_iff_getElem.mp hf
    have := hval i hi
    rw [List.getD_eq_getElem _ (0, 0) hi, hival] at this
    rw [this]
    dsimp only
    omega
  · rw [List.chain'_iff_get]
    intro i hilt
    have hi1 : i < (Diar.faRun chunks).frames.length := by omega
    have hi2 : i + 1 < (Diar.faRun chunks).frames.length := by omega
    rw [← List.getD_eq_get _ (0, 0) hi1, ← List.getD_eq_get _ (0, 0) hi2,
      hval i hi1, hval (i + 1) hi2]
    dsimp only
    push_cast
    ring

/-- Closed witness for C6: one 16000-sample (1 s) chunk yields exactly
one frame, at `(0, 1000)`. -/
theorem C6_frame_extraction_times_witness :
    0 < (Diar.faRun [16000]).extracted.length ∧
    (Diar.faRun [16000]).extracted.getD 0 (0, 0) = (((0 : Nat) : Int) * 250,
      ((0 : Nat) : Int) * 250 + 1000) :=
  ⟨by decide, (C6_frame_extraction_times [16000]).1 0 (by decide)⟩

end DLW
